import Mathlib

/-
  Verification development for the Veetaa price-discovery prototype
  (src/veetaa-proto: fallback_service.py, scraper_service.py, main_simple.py).

  The Python code is shallowly embedded as executable Lean definitions:
  strings are Lean strings over lists of characters, Python floats become
  exact rationals (the comparisons performed by the code — against 49, 50,
  10_000_000, 2023..2025 and 0 — are unaffected by binary floating-point
  rounding on the values the extractors can produce), network fetches and
  HTML parses become explicit input data, and Python exceptions become
  explicit Except values caught exactly where the source's try/except sits.
  The two regular expressions of the price extractors are embedded as
  direct left-to-right scanners reproducing re.findall semantics
  (leftmost, non-overlapping, greedy) on the concrete patterns; the regex
  class for a digit is modelled as the ASCII digits and whitespace as the
  ASCII whitespace characters, the fragment the code's inputs exercise.
-/

namespace Veetaa

attribute [local semireducible] Rat.add Rat.mul Rat.inv Rat.ofScientific

/-! ## Character and string helpers -/

def isDigitCh (c : Char) : Bool := '0' ≤ c && c ≤ '9'

def isDigitComma (c : Char) : Bool := isDigitCh c || c = ','

def isSpaceCh (c : Char) : Bool := c = ' ' || c = '\t' || c = '\n' || c = '\r'

/-- Case-insensitive comparison of a text character against a lowercase
pattern character, as re.IGNORECASE does on ASCII letters. -/
def lowEq (c target : Char) : Bool := c.toLower = target

/-- Python's str.replace of the non-breaking space by a regular space,
the normalization both extractors perform first. -/
def normChars (l : List Char) : List Char :=
  l.map (fun c => if c.toNat = 160 then ' ' else c)

/-- Python's str.strip (on the whitespace the embedded inputs use). -/
def stripChars (l : List Char) : List Char :=
  ((l.dropWhile isSpaceCh).reverse.dropWhile isSpaceCh).reverse

/-- Does the second list start with the first one? -/
def startsWithChars : List Char → List Char → Bool
  | [], _ => true
  | _ :: _, [] => false
  | n :: nt, h :: ht => n = h && startsWithChars nt ht

def containsChars (needle : List Char) : List Char → Bool
  | [] => needle.isEmpty
  | l@(_ :: t) => startsWithChars needle l || containsChars needle t

/-- Python's substring test needle in hay. -/
def strContains (hay needle : String) : Bool :=
  containsChars needle.data hay.data

/-- Python's str.lower on the ASCII fragment. -/
def pyLower (s : String) : String := String.mk (s.data.map Char.toLower)

/-! ## Python float() on the matched groups

A matched group consists of digits and commas, optionally followed by a
dot and one or two digits.  The code removes the commas and calls float;
float fails (and the candidate is skipped) when nothing numeric is left,
e.g. when the group was a lone comma. -/

def natOfDigits (l : List Char) : Nat :=
  l.foldl (fun a c => a * 10 + (c.toNat - 48)) 0

/-- float(group.replace(",", "")) as an exact rational; none models the
ValueError branch that makes the extractor skip the candidate. -/
def parseGroupVal (g : List Char) : Option ℚ :=
  let l := g.filter (fun c => c ≠ ',')
  let intPart := l.takeWhile isDigitCh
  let rest := l.dropWhile isDigitCh
  match rest with
  | [] => if intPart.isEmpty then none else some (natOfDigits intPart : ℚ)
  | '.' :: frac =>
      if frac.isEmpty then none
      else if frac.all isDigitCh then
        some ((natOfDigits intPart : ℚ) + (natOfDigits frac : ℚ) / ((10 ^ frac.length : ℕ) : ℚ))
      else none
  | _ => none

/-! ## The shared currency-prefixed pattern

Both extractors' first pattern is
  (?:₹|Rs\.?|INR)\s*([\d,]+(?:\.\d\x7b1,2\x7d)?)
with IGNORECASE.  tryPat1At attempts a match anchored at the head of the
list and returns the captured group plus the rest of the input after the
whole match; findall1 scans left to right, non-overlapping. -/

/-- Greedy match of the captured numeral group: a maximal nonempty run of
digits and commas, then optionally a dot with one or two digits (two
preferred).  Returns the group and the remainder after it. -/
def matchNumGroup (l : List Char) : Option (List Char × List Char) :=
  let run := l.takeWhile isDigitComma
  let rest := l.dropWhile isDigitComma
  if run.isEmpty then none
  else
    match rest with
    | '.' :: d1 :: d2 :: r =>
        if isDigitCh d1 && isDigitCh d2 then some (run ++ ['.', d1, d2], r)
        else if isDigitCh d1 then some (run ++ ['.', d1], d2 :: r)
        else some (run, rest)
    | ['.', d1] =>
        if isDigitCh d1 then some (run ++ ['.', d1], []) else some (run, rest)
    | _ => some (run, rest)

/-- Skip the \s* and match the numeral group. -/
def spacesThenNum (l : List Char) : Option (List Char × List Char) :=
  matchNumGroup (l.dropWhile isSpaceCh)

/-- Anchored match of the whole currency-prefixed pattern.  The
alternation ₹ then Rs\.? (dot greedy) then INR mirrors the regex; after
an Rs. whose tail has no numeral the Rs and INR alternatives cannot
succeed either, so returning the dotted attempt's failure is faithful. -/
def tryPat1At : List Char → Option (List Char × List Char)
  | [] => none
  | c :: r =>
    if c = '₹' then spacesThenNum r
    else if lowEq c 'r' then
      match r with
      | c2 :: r2 =>
          if lowEq c2 's' then
            match r2 with
            | '.' :: r3 => spacesThenNum r3
            | _ => spacesThenNum r2
          else none
      | [] => none
    else if lowEq c 'i' then
      match r with
      | c2 :: c3 :: r3 =>
          if lowEq c2 'n' && lowEq c3 'r' then spacesThenNum r3 else none
      | _ => none
    else none

/-- re.findall for the currency-prefixed pattern: captured groups of the
leftmost non-overlapping matches.  Fuel equal to the input length is
enough because every match consumes at least one character. -/
def findall1Fuel : Nat → List Char → List (List Char)
  | 0, _ => []
  | _, [] => []
  | fuel + 1, l@(_ :: t) =>
    match tryPat1At l with
    | some (g, rem) => g :: findall1Fuel fuel rem
    | none => findall1Fuel fuel t

def findall1 (l : List Char) : List (List Char) := findall1Fuel l.length l

/-! ## The fallback extractor's second pattern: ([\d,]+)\s*(?:Rs\.?|INR) -/

/-- Anchored match of the numeral-then-currency-suffix pattern.  The
numeral run must be maximal: shortening it leaves a digit or comma right
where the suffix would have to start, so no backtracking can succeed. -/
def tryPat2At (l : List Char) : Option (List Char × List Char) :=
  let run := l.takeWhile isDigitComma
  if run.isEmpty then none
  else
    let rest := (l.dropWhile isDigitComma).dropWhile isSpaceCh
    match rest with
    | c1 :: c2 :: r =>
        if lowEq c1 'r' && lowEq c2 's' then
          match r with
          | '.' :: r2 => some (run, r2)
          | _ => some (run, r)
        else if lowEq c1 'i' then
          match r with
          | c3 :: r2 => if lowEq c2 'n' && lowEq c3 'r' then some (run, r2) else none
          | [] => none
        else none
    | _ => none

def findall2Fuel : Nat → List Char → List (List Char)
  | 0, _ => []
  | _, [] => []
  | fuel + 1, l@(_ :: t) =>
    match tryPat2At l with
    | some (g, rem) => g :: findall2Fuel fuel rem
    | none => findall2Fuel fuel t

def findall2 (l : List Char) : List (List Char) := findall2Fuel l.length l

/-! ## The scraper service's second pattern: Price:\s*([\d,]+) -/

def spacesThenRun (l : List Char) : Option (List Char × List Char) :=
  let l2 := l.dropWhile isSpaceCh
  let run := l2.takeWhile isDigitComma
  if run.isEmpty then none else some (run, l2.dropWhile isDigitComma)

def tryPatPriceAt : List Char → Option (List Char × List Char)
  | p :: r1 :: i :: c :: e :: col :: rest =>
      if lowEq p 'p' && lowEq r1 'r' && lowEq i 'i' && lowEq c 'c' &&
         lowEq e 'e' && col = ':' then spacesThenRun rest
      else none
  | _ => none

def findallPriceFuel : Nat → List Char → List (List Char)
  | 0, _ => []
  | _, [] => []
  | fuel + 1, l@(_ :: t) =>
    match tryPatPriceAt l with
    | some (g, rem) => g :: findallPriceFuel fuel rem
    | none => findallPriceFuel fuel t

def findallPrice (l : List Char) : List (List Char) := findallPriceFuel l.length l

/-! ## The two price extractors -/

/-- The inner loop shared by both extractors: walk the matched groups in
order, parse each as a float (skipping the ValueError cases) and return
the first value the plausibility filter accepts. -/
def firstAccepted (accept : ℚ → Bool) : List (List Char) → Option ℚ
  | [] => none
  | g :: rest =>
    match parseGroupVal g with
    | some v => if accept v then some v else firstAccepted accept rest
    | none => firstAccepted accept rest

/-- FallbackScraper._parse_price's plausibility filter:
val > 49 and val < 10000000. -/
def acceptFb (v : ℚ) : Bool := 49 < v && v < 10000000

/-- ScraperService._extract_price's plausibility filter:
val > 50 and val != 2023 and val != 2024 and val != 2025. -/
def acceptFc (v : ℚ) : Bool := 50 < v && v ≠ 2023 && v ≠ 2024 && v ≠ 2025

/-- The pattern cascade shared by both extractors: first value accepted
among the first pattern's groups, else among the second pattern's, else
the 0.0 sentinel. -/
def priceFromScan (accept : ℚ → Bool) (cs1 cs2 : List (List Char)) : ℚ :=
  match firstAccepted accept cs1 with
  | some v => v
  | none =>
    match firstAccepted accept cs2 with
    | some v => v
    | none => 0

/-- FallbackScraper._parse_price (fallback_service.py:270-298).  Empty
text takes the `if not text` early return, 0.0 is the "no price found"
sentinel. -/
def parse_price (text : String) : ℚ :=
  if text = "" then 0
  else
    let t := stripChars (normChars text.data)
    priceFromScan acceptFb (findall1 t) (findall2 t)

/-- _parse_price applied to an optional selector result; Python's
`if not text` also catches the None case. -/
def parse_price_opt : Option String → ℚ
  | none => 0
  | some t => parse_price t

/-- ScraperService._extract_price (scraper_service.py:145-174): same
first pattern, a "Price:" prefixed second pattern, and the
year-excluding filter without an upper bound.  No strip is applied. -/
def extract_price (text : String) : ℚ :=
  if text = "" then 0
  else
    let t := normChars text.data
    priceFromScan acceptFc (findall1 t) (findallPrice t)

example : parse_price "₹1,200" = 1200 := by decide
example : parse_price "Rs. 999.50" = (1999 : ℚ) / 2 := by decide
example : parse_price "2024" = 0 := by decide
example : parse_price "₹10" = 0 := by decide
example : parse_price "₹99999999" = 0 := by decide
example : parse_price "1200 Rs" = 1200 := by decide
example : extract_price "1200 Rs" = 0 := by decide
example : extract_price "Price: 500" = 500 := by decide
example : extract_price "₹99999999" = 99999999 := by decide
example : extract_price "₹2,024" = 0 := by decide
example : parse_price "₹2,024" = 2024 := by decide

/-! ## Data model

One observed price.  The Python code passes dicts whose keys vary by
producer; the embedding uses one structure with the defaults the absent
keys take.  The last_updated timestamp (datetime.utcnow()) carries no
information the claims touch and is omitted. -/

structure PriceRecord where
  marketplace : String
  price : ℚ
  currency : String
  url : String
  description : Option String := none
  images : List String := []
  inStock : Bool := true
  originalPrice : Option ℚ := none
  discountPercentage : Option ℚ := none
  deriving Repr, DecidableEq

/-! ## Marketplace identification -/

/-- FallbackScraper._identify_marketplace (fallback_service.py:217-225):
lowercase the URL, then an ordered substring table, first match wins. -/
def identify_marketplace (url : String) : Option String :=
  let u := pyLower url
  if strContains u "amazon.in" then some "Amazon"
  else if strContains u "flipkart.com" then some "Flipkart"
  else if strContains u "croma.com" then some "Croma"
  else if strContains u "reliancedigital" then some "Reliance Digital"
  else if strContains u "jiomart" then some "JioMart"
  else if strContains u "tatacliq" then some "Tata Cliq"
  else none

/-- The marketplace assignment inlined in ScraperService._parse_results
(scraper_service.py:111-122): its own, smaller table, substring-matched
against the URL without lowercasing, defaulting to "Online Store". -/
def fcMarketplace (url : String) : String :=
  if strContains url "amazon.in" then "Amazon"
  else if strContains url "flipkart.com" then "Flipkart"
  else if strContains url "jiomart" then "JioMart"
  else if strContains url "croma" then "Croma"
  else "Online Store"

/-! ## Search-engine aggregator (FallbackScraper.scrape_search_engine)

The HTTP response and the parsed DuckDuckGo result items are inputs.
A missing .result__a tag skips the item; a title tag without an href
raises a KeyError which the function-level except catches, returning the
records accumulated so far. -/

structure DDGTitleTag where
  text : String
  href : Option String
  deriving Repr, DecidableEq

structure DDGResult where
  titleTag : Option DDGTitleTag
  snippet : Option String
  deriving Repr, DecidableEq

structure DDGPage where
  status : Nat
  results : List DDGResult
  deriving Repr, DecidableEq

/-- Outcome of one iteration of a scraping loop over parsed items:
the item is skipped, aborts the loop (an uncaught exception inside the
iteration), or contributes a record. -/
inductive LoopStep where
  | skip
  | abort
  | keep (r : PriceRecord)

/-- One iteration of scrape_search_engine's loop (fallback_service.py:
87-115): a missing .result__a tag skips the item; a title tag without
an href raises the KeyError that aborts the loop; otherwise the item is
kept when it resolves to a known marketplace or carries a parsable
price. -/
def seResultStep (res : DDGResult) : LoopStep :=
  match res.titleTag with
  | none => .skip
  | some tag =>
    match tag.href with
    | none => .abort
    | some link =>
      let snippet := match res.snippet with | some s => s | none => ""
      let fullText := tag.text ++ " " ++ snippet
      let marketplace := identify_marketplace link
      let price := parse_price fullText
      if marketplace.isSome || decide (0 < price) then
        .keep { marketplace := match marketplace with | some m => m | none => "Online Store",
                price := price, currency := "INR", url := link }
      else .skip

/-- The loop over the first 12 results.  The list returned on the href
KeyError is cut short exactly where the exception fires: records already
appended by earlier iterations stay (the function-level except handler
returns the accumulated list). -/
def seLoop : List DDGResult → List PriceRecord
  | [] => []
  | res :: rest =>
    match seResultStep res with
    | .skip => seLoop rest
    | .abort => []
    | .keep r => r :: seLoop rest

def scrape_search_engine (f : Except Unit DDGPage) : List PriceRecord :=
  match f with
  | .error _ => []
  | .ok pg => if pg.status ≠ 200 then [] else seLoop (pg.results.take 12)

/-! ## Direct marketplace scrapers

Each scraper's HTTP fetch may raise (the Except input), may come back
with a non-200 status, and each parsed listing may itself blow up while
its fields are read (an .error item).  The Try functions are the bodies
of the source's try: blocks, an .error result carrying the records
accumulated when the exception fired; the scrapers proper apply the
source's except/pass and return that payload. -/

deriving instance DecidableEq for Except

structure AmzItem where
  title : Option String
  priceText : Option String
  link : Option String
  img : Option String
  deriving Repr, DecidableEq

structure AmzPage where
  status : Nat
  items : List (Except Unit AmzItem)
  deriving Repr, DecidableEq

/-- One iteration of scrape_amazon's loop (fallback_service.py:135-160):
none means the listing is skipped (missing/empty title, or price 0). -/
def amzItemParse (it : AmzItem) : Option PriceRecord :=
  match it.title with
  | none => none
  | some t =>
    if t = "" then none
    else
      let price := parse_price_opt it.priceText
      let fullLink := match it.link with
        | some l => if l = "" then "" else "https://www.amazon.in" ++ l
        | none => ""
      let images := match it.img with
        | some i => if i = "" then [] else [i]
        | none => []
      if decide (0 < price) then
        some { marketplace := "Amazon", price := price, currency := "INR",
               url := fullLink, images := images }
      else none

def amzLoopT : List (Except Unit AmzItem) → Except (List PriceRecord) (List PriceRecord)
  | [] => .ok []
  | .error _ :: _ => .error []
  | .ok it :: rest =>
    match amzItemParse it with
    | some r =>
      (match amzLoopT rest with
       | .ok l => .ok (r :: l)
       | .error l => .error (r :: l))
    | none => amzLoopT rest

def scrape_amazonTry (f : Except Unit AmzPage) : Except (List PriceRecord) (List PriceRecord) :=
  match f with
  | .error _ => .error []
  | .ok pg => if pg.status ≠ 200 then .ok [] else amzLoopT (pg.items.take 4)

/-- FallbackScraper.scrape_amazon (fallback_service.py:122-163): the
whole body is wrapped in try/except Exception: pass; return products. -/
def scrape_amazon (f : Except Unit AmzPage) : List PriceRecord :=
  match scrape_amazonTry f with
  | .ok l => l
  | .error l => l

structure FkCard where
  priceText : Option String
  linkHref : Option (Option String)
  img : Option String
  deriving Repr, DecidableEq

structure FkPage where
  status : Nat
  cards : List (Except Unit FkCard)
  deriving Repr, DecidableEq

/-- One iteration of scrape_flipkart's loop (fallback_service.py:
182-212): cards without a price text (falsy, so None or empty) or
without a link tag are skipped; a card whose field reads blow up aborts
into the function-level handler; a card with a positive parsed price is
kept. -/
def fkCardStep (card : Except Unit FkCard) : LoopStep :=
  match card with
  | .error _ => .abort
  | .ok c =>
    match c.priceText with
    | none => .skip
    | some pt =>
      if pt = "" then .skip
      else
        match c.linkHref with
        | none => .skip
        | some href =>
          let link := match href with | some l => l | none => ""
          let fullLink := if link = "" then "" else "https://www.flipkart.com" ++ link
          let images := match c.img with
            | some i => if i = "" then [] else [i]
            | none => []
          let price := parse_price pt
          if decide (0 < price) then
            .keep { marketplace := "Flipkart", price := price, currency := "INR",
                    url := fullLink, images := images }
          else .skip

/-- scrape_flipkart's loop: all cards are walked with a count of
appended records, breaking when the count reaches 4 at the top of an
iteration; only kept cards increment the count. -/
def fkLoopT : List (Except Unit FkCard) → Nat → Except (List PriceRecord) (List PriceRecord)
  | [], _ => .ok []
  | card :: rest, count =>
    if count ≥ 4 then .ok []
    else
      match fkCardStep card with
      | .skip => fkLoopT rest count
      | .abort => .error []
      | .keep r =>
        match fkLoopT rest (count + 1) with
        | .ok l => .ok (r :: l)
        | .error l => .error (r :: l)

def scrape_flipkartTry (f : Except Unit FkPage) : Except (List PriceRecord) (List PriceRecord) :=
  match f with
  | .error _ => .error []
  | .ok pg => if pg.status ≠ 200 then .ok [] else fkLoopT pg.cards 0

/-- FallbackScraper.scrape_flipkart (fallback_service.py:165-215). -/
def scrape_flipkart (f : Except Unit FkPage) : List PriceRecord :=
  match scrape_flipkartTry f with
  | .ok l => l
  | .error l => l

/-! ## Fallback orchestrator (FallbackScraper.search) -/

/-- The first-seen-wins URL deduplication loop (fallback_service.py:50-56),
seen_urls threaded as a list. -/
def dedupGo : List PriceRecord → List String → List PriceRecord
  | [], _ => []
  | r :: rest, seen =>
    if r.url ∈ seen then dedupGo rest seen
    else r :: dedupGo rest (r.url :: seen)

def dedupByUrl (l : List PriceRecord) : List PriceRecord := dedupGo l []

/-- FallbackScraper.search (fallback_service.py:23-58).  The aggregator's
records are an input (each direct-scrape call sits in its own
try/except, so a raising call — the .error case — contributes nothing
but does not stop the sequence).  The two booleans record whether the
Amazon and Flipkart scrapers were invoked. -/
def fallback_search (seResults : List PriceRecord)
    (amz fk : Except Unit (List PriceRecord)) :
    List PriceRecord × Bool × Bool :=
  if seResults.length < 2 then
    let results := seResults ++ (match amz with | .ok l => l | .error _ => [])
    let results := results ++ (match fk with | .ok l => l | .error _ => [])
    (dedupByUrl results, true, true)
  else (dedupByUrl seResults, false, false)

/-! ## Primary adapter normalization and top-level orchestrator -/

structure FCItem where
  url : String := ""
  title : String := ""
  description : String := ""
  metaOgImage : Option String := none
  deriving Repr, DecidableEq

/-- The shapes the remote search response may take
(scraper_service.py:44-48): a dict with a data field, a raw list, or
anything else (which normalizes to no items). -/
inductive FCResponse where
  | dictData (items : List FCItem)
  | rawList (items : List FCItem)
  | otherShape
  deriving Repr, DecidableEq

def fcItems : FCResponse → List FCItem
  | .dictData l => l
  | .rawList l => l
  | .otherShape => []

/-- ScraperService._parse_results (scraper_service.py:102-144): one
snapshot per item, no filtering, no deduplication. -/
def parse_results (items : List FCItem) : List PriceRecord :=
  items.map fun item =>
    let content := item.title ++ " " ++ item.description
    let price := extract_price content
    { marketplace := fcMarketplace item.url,
      price := price,
      currency := "INR",
      url := item.url,
      description := some (if item.description = "" then item.title else item.description),
      images := match item.metaOgImage with | some i => [i] | none => [],
      inStock := decide (0 < price) }

/-- ScraperService.search_products (scraper_service.py:19-73).  The app
argument is none when no credential is configured, otherwise the outcome
of the remote call; fallbackResult is what self.fallback.search would
return.  The boolean records whether the fallback tier was invoked. -/
def search_products (app : Option (Except Unit FCResponse))
    (fallbackResult : List PriceRecord) : List PriceRecord × Bool :=
  let results : List PriceRecord :=
    match app with
    | none => []
    | some (.error _) => []
    | some (.ok resp) =>
      let items := fcItems resp
      if items.isEmpty then [] else parse_results items
  if results.isEmpty then (fallbackResult, true) else (results, false)

/-! ## The exposed search endpoint (main_simple.py:84-127) -/

structure PriceSnapshot where
  marketplace : String
  price : ℚ
  currency : String
  url : String
  deriving Repr, DecidableEq

def toSnapshot (p : PriceRecord) : PriceSnapshot :=
  { marketplace := p.marketplace, price := p.price,
    currency := p.currency, url := p.url }

/-- p price greater than min_price tracker, none playing float(inf). -/
def ltMin (v : ℚ) : Option ℚ → Bool
  | none => true
  | some m => decide (v < m)

/-- The loop of the search endpoint: build the snapshot list and track
the best (minimal positive-price) snapshot, threading min_price. -/
def searchAgg : List PriceRecord → Option PriceSnapshot → Option ℚ →
    List PriceSnapshot × Option PriceSnapshot × Option ℚ
  | [], best, minP => ([], best, minP)
  | p :: rest, best, minP =>
    let s := toSnapshot p
    let keep := decide (0 < p.price) && ltMin p.price minP
    let best2 := if keep then some s else best
    let min2 := if keep then some p.price else minP
    let out := searchAgg rest best2 min2
    (s :: out.1, out.2)

/-- The response assembly of the search endpoint: snapshot list, best
price pick, confidence score. -/
def searchEndpoint (realPrices : List PriceRecord) :
    List PriceSnapshot × Option PriceSnapshot × ℚ :=
  let out := searchAgg realPrices none none
  (out.1, out.2.1, if out.1.isEmpty then (0.1 : ℚ) else (0.8 : ℚ))

example : (searchEndpoint []).2.2 = 0.1 := by decide

/-! ## Helper notions used by the statements -/

/-- The parsed values of the shared currency-prefixed pattern's matches
on a text, after the normalization both extractors apply. -/
def pat1Vals (t : String) : List ℚ :=
  (findall1 (normChars t.data)).filterMap parseGroupVal

/-- The payload a try/except Exception: pass; return products region
yields, whether or not the body raised. -/
def exVal : Except (List PriceRecord) (List PriceRecord) → List PriceRecord
  | .ok l => l
  | .error l => l

/-- The loop invariant of the search endpoint's best-price tracking:
the pair (best, min_price) is sound and complete for the records seen
so far. -/
def BestInv (seen : List PriceRecord) : Option PriceSnapshot × Option ℚ → Prop
  | (none, none) => ∀ r ∈ seen, ¬ (0 < r.price)
  | (some b, some m) => b.price = m ∧ (∃ r ∈ seen, toSnapshot r = b ∧ 0 < r.price) ∧
      ∀ r ∈ seen, 0 < r.price → m ≤ r.price
  | (none, some _) => False
  | (some _, none) => False

/-! # Theorems -/

/-! ## Price extractor facts -/

theorem firstAccepted_accepts (accept : ℚ → Bool) (cs : List (List Char)) (v : ℚ)
    (h : firstAccepted accept cs = some v) : accept v = true := by
  induction cs with
  | nil => simp [firstAccepted] at h
  | cons g rest ih =>
    rcases hg : parseGroupVal g with _ | w
    · simp only [firstAccepted, hg] at h
      exact ih h
    · simp only [firstAccepted, hg] at h
      by_cases hacc : accept w = true
      · rw [if_pos hacc] at h
        cases h
        exact hacc
      · rw [if_neg hacc] at h
        exact ih h

theorem priceFromScan_cases (accept : ℚ → Bool) (cs1 cs2 : List (List Char)) :
    priceFromScan accept cs1 cs2 = 0 ∨ accept (priceFromScan accept cs1 cs2) = true := by
  unfold priceFromScan
  rcases h1 : firstAccepted accept cs1 with _ | v
  · rcases h2 : firstAccepted accept cs2 with _ | v
    · exact Or.inl rfl
    · exact Or.inr (firstAccepted_accepts _ _ _ h2)
  · exact Or.inr (firstAccepted_accepts _ _ _ h1)

theorem parse_price_cases (t : String) :
    parse_price t = 0 ∨ acceptFb (parse_price t) = true := by
  unfold parse_price
  by_cases he : t = ""
  · rw [if_pos he]
    exact Or.inl rfl
  · rw [if_neg he]
    exact priceFromScan_cases _ _ _

theorem extract_price_cases (t : String) :
    extract_price t = 0 ∨ acceptFc (extract_price t) = true := by
  unfold extract_price
  by_cases he : t = ""
  · rw [if_pos he]
    exact Or.inl rfl
  · rw [if_neg he]
    exact priceFromScan_cases _ _ _

theorem acceptFb_iff (v : ℚ) : acceptFb v = true ↔ 49 < v ∧ v < 10000000 := by
  simp [acceptFb]

theorem acceptFc_iff (v : ℚ) :
    acceptFc v = true ↔ 50 < v ∧ v ≠ 2023 ∧ v ≠ 2024 ∧ v ≠ 2025 := by
  simp [acceptFc]
  tauto

/-- C2, counterexample: the page-inspection variant accepts a value far
above the claimed 10_000_000 ceiling, so the open range (49, 10_000_000)
does not apply to both extractors. -/
theorem C2_counterexample :
    extract_price "₹99999999" = 99999999 ∧ (99999999 : ℚ) ≠ 0 := by
  constructor
  · decide
  · decide

/-- C2, amended: the open-range (49, 10_000_000) plausibility filter is
exactly the generic extractor's (_parse_price): every nonzero result lies
in that open range, and both example inputs yield 0 there.  The
page-inspection variant (_extract_price) instead accepts only values
greater than 50 that are not the calendar years 2023-2025, with no upper
bound: it yields 0 for the below-bound input but 99999999 for
"₹99999999". -/
theorem C2_plausibility_ranges :
    (∀ t : String, parse_price t = 0 ∨ (49 < parse_price t ∧ parse_price t < 10000000)) ∧
    (∀ t : String, extract_price t = 0 ∨
      (50 < extract_price t ∧ extract_price t ≠ 2023 ∧
        extract_price t ≠ 2024 ∧ extract_price t ≠ 2025)) ∧
    parse_price "₹10" = 0 ∧ parse_price "₹99999999" = 0 ∧
    extract_price "₹10" = 0 ∧ extract_price "₹99999999" = 99999999 := by
  refine ⟨fun t => ?_, fun t => ?_, by decide, by decide, by decide, by decide⟩
  · rcases parse_price_cases t with h | h
    · exact Or.inl h
    · exact Or.inr ((acceptFb_iff _).1 h)
  · rcases extract_price_cases t with h | h
    · exact Or.inl h
    · exact Or.inr ((acceptFc_iff _).1 h)

/-- C3, counterexample: on "1200 Rs" the year-exclusion rule never fires
(the variant finds no candidate at all), yet the generic extractor
returns 1200 while the page-inspection variant returns 0 — their second
patterns differ, so they are not the same core algorithm. -/
theorem C3_counterexample :
    parse_price "1200 Rs" = 1200 ∧ extract_price "1200 Rs" = 0 ∧
    (1200 : ℚ) ≠ (0 : ℚ) := by
  refine ⟨by decide, by decide, by decide⟩

theorem firstAccepted_agree (cs : List (List Char))
    (hall : ∀ v ∈ cs.filterMap parseGroupVal,
        v ≤ 49 ∨ (50 < v ∧ v < 10000000 ∧ v ≠ 2023 ∧ v ≠ 2024 ∧ v ≠ 2025))
    (hsome : ∃ v ∈ cs.filterMap parseGroupVal,
        50 < v ∧ v < 10000000 ∧ v ≠ 2023 ∧ v ≠ 2024 ∧ v ≠ 2025) :
    ∃ v, firstAccepted acceptFb cs = some v ∧ firstAccepted acceptFc cs = some v := by
  induction cs with
  | nil => simp at hsome
  | cons g rest ih =>
    rcases hg : parseGroupVal g with _ | w
    · have hall' : ∀ v ∈ rest.filterMap parseGroupVal,
          v ≤ 49 ∨ (50 < v ∧ v < 10000000 ∧ v ≠ 2023 ∧ v ≠ 2024 ∧ v ≠ 2025) := by
        intro v hv
        exact hall v (by simp [List.filterMap_cons, hg, hv])
      have hsome' : ∃ v ∈ rest.filterMap parseGroupVal,
          50 < v ∧ v < 10000000 ∧ v ≠ 2023 ∧ v ≠ 2024 ∧ v ≠ 2025 := by
        rcases hsome with ⟨v, hv, hprop⟩
        refine ⟨v, ?_, hprop⟩
        simpa [List.filterMap_cons, hg] using hv
      rcases ih hall' hsome' with ⟨v, h1, h2⟩
      exact ⟨v, by simpa [firstAccepted, hg] using h1, by simpa [firstAccepted, hg] using h2⟩
    · have hw : w ∈ (g :: rest).filterMap parseGroupVal := by
        simp [List.filterMap_cons, hg]
      rcases hall w hw with hle | hacc
      · have hfb : ¬ (acceptFb w = true) := by
          rw [acceptFb_iff]
          intro hc
          exact absurd hc.1 (not_lt.2 hle)
        have h50 : w ≤ 50 := hle.trans (by norm_num)
        have hfc : ¬ (acceptFc w = true) := by
          rw [acceptFc_iff]
          intro hc
          exact absurd hc.1 (not_lt.2 h50)
        have hall' : ∀ v ∈ rest.filterMap parseGroupVal,
            v ≤ 49 ∨ (50 < v ∧ v < 10000000 ∧ v ≠ 2023 ∧ v ≠ 2024 ∧ v ≠ 2025) := by
          intro v hv
          exact hall v (by simp [List.filterMap_cons, hg, hv])
        have hsome' : ∃ v ∈ rest.filterMap parseGroupVal,
            50 < v ∧ v < 10000000 ∧ v ≠ 2023 ∧ v ≠ 2024 ∧ v ≠ 2025 := by
          rcases hsome with ⟨v, hv, hprop⟩
          rw [List.filterMap_cons, hg] at hv
          rcases List.mem_cons.1 hv with hvw | hvrest
          · subst hvw
            exact absurd hprop.1 (not_lt.2 h50)
          · exact ⟨v, hvrest, hprop⟩
        rcases ih hall' hsome' with ⟨v, h1, h2⟩
        refine ⟨v, ?_, ?_⟩
        · simpa [firstAccepted, hg, Bool.eq_false_iff.2 hfb] using h1
        · simpa [firstAccepted, hg, Bool.eq_false_iff.2 hfc] using h2
      · refine ⟨w, ?_, ?_⟩
        · have : acceptFb w = true := by
            rw [acceptFb_iff]
            exact ⟨lt_trans (by norm_num) hacc.1, hacc.2.1⟩
          simp [firstAccepted, hg, this]
        · have : acceptFc w = true := by
            rw [acceptFc_iff]
            exact ⟨hacc.1, hacc.2.2⟩
          simp [firstAccepted, hg, this]

/-- C3, amended: the two extractors share the currency-prefixed first
pattern but differ in their second pattern and in their plausibility
filters, so they agree exactly where those differences cannot bite: on
every text without surrounding whitespace whose currency-prefixed
candidate values all lie either in the common rejection region (at most
49) or in the common acceptance region (between 50 exclusive and
10_000_000 exclusive and not a calendar year 2023-2025), with at least
one candidate in the acceptance region, the generic extractor and the
page-inspection variant return the same value. -/
theorem C3_extractors_agree (t : String)
    (hstrip : stripChars (normChars t.data) = normChars t.data)
    (hall : ∀ v ∈ pat1Vals t,
        v ≤ 49 ∨ (50 < v ∧ v < 10000000 ∧ v ≠ 2023 ∧ v ≠ 2024 ∧ v ≠ 2025))
    (hsome : ∃ v ∈ pat1Vals t,
        50 < v ∧ v < 10000000 ∧ v ≠ 2023 ∧ v ≠ 2024 ∧ v ≠ 2025) :
    parse_price t = extract_price t := by
  simp only [pat1Vals] at hall hsome
  have hne : t ≠ "" := by
    intro he
    subst he
    have hempty : findall1 (normChars ("" : String).data) = [] := by decide
    rw [hempty] at hsome
    simp at hsome
  rcases firstAccepted_agree (findall1 (normChars t.data)) hall hsome with ⟨v, h1, h2⟩
  simp only [parse_price, extract_price, if_neg hne, hstrip]
  simp [priceFromScan, h1, h2]

/-- C3 witness: a concrete text satisfying the agreement hypotheses, on
which both extractors indeed coincide. -/
theorem C3_agreement_witness : parse_price "₹1,200" = extract_price "₹1,200" :=
  C3_extractors_agree "₹1,200" (by decide) (by decide) (by decide)

/-! ## Per-scraper record facts -/

theorem amzItemParse_pos (it : AmzItem) (r : PriceRecord)
    (h : amzItemParse it = some r) : 0 < r.price := by
  rcases ht : it.title with _ | ttl
  · simp [amzItemParse, ht] at h
  · by_cases he : ttl = ""
    · simp [amzItemParse, ht, he] at h
    · by_cases hp : (0 : ℚ) < parse_price_opt it.priceText
      · simp [amzItemParse, ht, he, hp] at h
        rw [← h]
        exact hp
      · simp [amzItemParse, ht, he, hp] at h

theorem amzLoopT_pos (items : List (Except Unit AmzItem)) :
    ∀ r ∈ exVal (amzLoopT items), 0 < r.price := by
  induction items with
  | nil =>
    intro r hr
    simp [amzLoopT, exVal] at hr
  | cons it rest ih =>
    intro r hr
    match it with
    | .error _ => simp [amzLoopT, exVal] at hr
    | .ok itd =>
      rcases hp : amzItemParse itd with _ | r0
      · simp only [amzLoopT, hp] at hr
        exact ih r hr
      · rcases hrest : amzLoopT rest with l | l
        · simp only [amzLoopT, hp, hrest, exVal] at hr
          rcases List.mem_cons.1 hr with hr0 | hr0
          · rw [hr0]
            exact amzItemParse_pos _ _ hp
          · have := ih r
            rw [hrest] at this
            exact this (by simpa [exVal] using hr0)
        · simp only [amzLoopT, hp, hrest, exVal] at hr
          rcases List.mem_cons.1 hr with hr0 | hr0
          · rw [hr0]
            exact amzItemParse_pos _ _ hp
          · have := ih r
            rw [hrest] at this
            exact this (by simpa [exVal] using hr0)

theorem scrape_amazon_exVal (f : Except Unit AmzPage) :
    scrape_amazon f = exVal (scrape_amazonTry f) := by
  unfold scrape_amazon exVal
  rcases scrape_amazonTry f with l | l <;> rfl

theorem scrape_flipkart_exVal (f : Except Unit FkPage) :
    scrape_flipkart f = exVal (scrape_flipkartTry f) := by
  unfold scrape_flipkart exVal
  rcases scrape_flipkartTry f with l | l <;> rfl

theorem scrape_amazon_pos (f : Except Unit AmzPage) :
    ∀ r ∈ scrape_amazon f, 0 < r.price := by
  intro r hr
  rw [scrape_amazon_exVal] at hr
  match f with
  | .error _ => simp [scrape_amazonTry, exVal] at hr
  | .ok pg =>
    by_cases hs : pg.status ≠ 200
    · simp [scrape_amazonTry, hs, exVal] at hr
    · simp only [scrape_amazonTry, hs, if_false, ite_false] at hr
      exact amzLoopT_pos _ r hr

theorem fkCardStep_keep (card : Except Unit FkCard) (r : PriceRecord)
    (h : fkCardStep card = .keep r) : 0 < r.price ∧ r.marketplace = "Flipkart" := by
  match card with
  | .error _ => simp [fkCardStep] at h
  | .ok c =>
    rcases hpt : c.priceText with _ | pt
    · simp [fkCardStep, hpt] at h
    · by_cases he : pt = ""
      · simp [fkCardStep, hpt, he] at h
      · rcases hlk : c.linkHref with _ | href
        · simp [fkCardStep, hpt, he, hlk] at h
        · by_cases hp : (0 : ℚ) < parse_price pt
          · simp [fkCardStep, hpt, he, hlk, hp] at h
            rw [← h]
            exact ⟨hp, rfl⟩
          · simp [fkCardStep, hpt, he, hlk, hp] at h

theorem fkLoopT_pos (cards : List (Except Unit FkCard)) :
    ∀ count, ∀ r ∈ exVal (fkLoopT cards count), 0 < r.price := by
  induction cards with
  | nil =>
    intro count r hr
    simp [fkLoopT, exVal] at hr
  | cons card rest ih =>
    intro count r hr
    by_cases hc : count ≥ 4
    · simp [fkLoopT, hc, exVal] at hr
    · rcases hstep : fkCardStep card with _ | _ | r0
      · simp only [fkLoopT, if_neg hc, hstep] at hr
        exact ih count r hr
      · simp [fkLoopT, if_neg hc, hstep, exVal] at hr
      · rcases hrest : fkLoopT rest (count + 1) with l | l
        · simp only [fkLoopT, if_neg hc, hstep, hrest, exVal] at hr
          rcases List.mem_cons.1 hr with hr0 | hr0
          · rw [hr0]
            exact (fkCardStep_keep _ _ hstep).1
          · have := ih (count + 1) r
            rw [hrest] at this
            exact this (by simpa [exVal] using hr0)
        · simp only [fkLoopT, if_neg hc, hstep, hrest, exVal] at hr
          rcases List.mem_cons.1 hr with hr0 | hr0
          · rw [hr0]
            exact (fkCardStep_keep _ _ hstep).1
          · have := ih (count + 1) r
            rw [hrest] at this
            exact this (by simpa [exVal] using hr0)

theorem scrape_flipkart_pos (f : Except Unit FkPage) :
    ∀ r ∈ scrape_flipkart f, 0 < r.price := by
  intro r hr
  rw [scrape_flipkart_exVal] at hr
  match f with
  | .error _ => simp [scrape_flipkartTry, exVal] at hr
  | .ok pg =>
    by_cases hs : pg.status ≠ 200
    · simp [scrape_flipkartTry, hs, exVal] at hr
    · simp only [scrape_flipkartTry, hs, if_false, ite_false] at hr
      exact fkLoopT_pos _ 0 r hr

theorem seResultStep_keep (res : DDGResult) (r : PriceRecord)
    (h : seResultStep res = .keep r) :
    r.marketplace = (identify_marketplace r.url).getD "Online Store" ∧
    (0 < r.price ∨ (identify_marketplace r.url).isSome = true) := by
  rcases htag : res.titleTag with _ | tag
  · simp [seResultStep, htag] at h
  · rcases fhref : tag.href with _ | link
    · simp [seResultStep, htag, fhref] at h
    · simp only [seResultStep, htag, fhref] at h
      split at h
      case isTrue hcond =>
        cases h
        constructor
        · rcases hm : identify_marketplace link with _ | m <;> simp [hm]
        · rw [Bool.or_eq_true] at hcond
          rcases hcond with hb | hb
          · exact Or.inr (by simpa using hb)
          · exact Or.inl (by simpa using hb)
      case isFalse hcond => cases h

theorem seLoop_spec (results : List DDGResult) :
    ∀ r ∈ seLoop results,
      r.marketplace = (identify_marketplace r.url).getD "Online Store" ∧
      (0 < r.price ∨ (identify_marketplace r.url).isSome = true) := by
  induction results with
  | nil =>
    intro r hr
    simp [seLoop] at hr
  | cons res rest ih =>
    intro r hr
    rcases hstep : seResultStep res with _ | _ | r0
    · simp only [seLoop, hstep] at hr
      exact ih r hr
    · simp [seLoop, hstep] at hr
    · simp only [seLoop, hstep] at hr
      rcases List.mem_cons.1 hr with hr0 | hr0
      · rw [hr0]
        exact seResultStep_keep _ _ hstep
      · exact ih r hr0

theorem scrape_search_engine_spec (f : Except Unit DDGPage) :
    ∀ r ∈ scrape_search_engine f,
      r.marketplace = (identify_marketplace r.url).getD "Online Store" ∧
      (0 < r.price ∨ (identify_marketplace r.url).isSome = true) := by
  intro r hr
  match f with
  | .error _ => simp [scrape_search_engine] at hr
  | .ok pg =>
    by_cases hs : pg.status ≠ 200
    · simp [scrape_search_engine, hs] at hr
    · simp only [scrape_search_engine, hs, if_false, ite_false] at hr
      exact seLoop_spec _ r hr

/-- C1, counterexample: a complete run of the top-level search in which
the primary adapter is absent and the aggregator sees one result that
resolves to a known marketplace but has no parsable price: the record
reaches the caller with price 0, so price > 0 does not hold for every
record of a search response. -/
theorem C1_zero_price_reaches_caller :
    ∃ r ∈ (search_products none (fallback_search
        (scrape_search_engine (.ok ⟨200,
          [⟨some ⟨"Acme Phone new model", some "https://www.amazon.in/dp/b1"⟩, none⟩]⟩))
        (.ok []) (.ok [])).1).1, r.price = 0 := by
  decide

/-- C1, amended: zero-price candidates are dropped only by the two
direct marketplace scrapers; the search-engine aggregator keeps a
zero-price candidate whenever its URL resolves to a known marketplace
(and the primary adapter applies no price filter at all), so the
invariant price > 0 holds tier-by-tier only in the direct-scraper
tier. -/
theorem C1_price_positive_by_tier :
    (∀ f, ∀ r ∈ scrape_amazon f, 0 < r.price) ∧
    (∀ f, ∀ r ∈ scrape_flipkart f, 0 < r.price) ∧
    (∀ f, ∀ r ∈ scrape_search_engine f,
        0 < r.price ∨ (identify_marketplace r.url).isSome = true) :=
  ⟨scrape_amazon_pos, scrape_flipkart_pos,
   fun f r hr => (scrape_search_engine_spec f r hr).2⟩

/-- C1 witness: the direct-scraper positivity applied to a concrete
Flipkart page with one parsable card. -/
theorem C1_price_positive_witness :
    (0 : ℚ) < ({ marketplace := "Flipkart", price := 599, currency := "INR",
                 url := "https://www.flipkart.com/p/x1" } : PriceRecord).price :=
  C1_price_positive_by_tier.2.1
    (.ok ⟨200, [.ok ⟨some "₹599", some (some "/p/x1"), none⟩]⟩) _ (by decide)

/-! ## Deduplication facts -/

theorem dedupGo_nodup (l : List PriceRecord) :
    ∀ seen, ((dedupGo l seen).map PriceRecord.url).Nodup ∧
      ∀ r ∈ dedupGo l seen, r.url ∉ seen := by
  induction l with
  | nil =>
    intro seen
    simp [dedupGo]
  | cons r rest ih =>
    intro seen
    by_cases hmem : r.url ∈ seen
    · rw [show dedupGo (r :: rest) seen = dedupGo rest seen by simp [dedupGo, hmem]]
      exact ih seen
    · rw [show dedupGo (r :: rest) seen = r :: dedupGo rest (r.url :: seen) by
        simp [dedupGo, hmem]]
      refine ⟨List.nodup_cons.2 ⟨?_, (ih (r.url :: seen)).1⟩, ?_⟩
      · intro hin
        rcases List.mem_map.1 hin with ⟨r2, hr2, hurl⟩
        exact absurd (hurl ▸ List.mem_cons_self _ _) ((ih (r.url :: seen)).2 r2 hr2)
      · intro r2 hr2
        rcases List.mem_cons.1 hr2 with h2 | h2
        · rw [h2]
          exact hmem
        · intro hin
          exact ((ih (r.url :: seen)).2 r2 h2) (List.mem_cons_of_mem _ hin)

theorem dedupGo_sublist (l : List PriceRecord) :
    ∀ seen, (dedupGo l seen).Sublist l := by
  induction l with
  | nil =>
    intro seen
    simp [dedupGo]
  | cons r rest ih =>
    intro seen
    by_cases hmem : r.url ∈ seen
    · rw [show dedupGo (r :: rest) seen = dedupGo rest seen by simp [dedupGo, hmem]]
      exact (ih seen).cons _
    · rw [show dedupGo (r :: rest) seen = r :: dedupGo rest (r.url :: seen) by
        simp [dedupGo, hmem]]
      exact (ih _).cons₂ _

theorem dedupGo_covers (l : List PriceRecord) :
    ∀ seen, ∀ r ∈ l, r.url ∈ seen ∨ ∃ r2 ∈ dedupGo l seen, r2.url = r.url := by
  induction l with
  | nil =>
    intro seen r hr
    simp at hr
  | cons p rest ih =>
    intro seen r hr
    by_cases hmem : p.url ∈ seen
    · rw [show dedupGo (p :: rest) seen = dedupGo rest seen by simp [dedupGo, hmem]]
      rcases List.mem_cons.1 hr with h | h
      · rw [h]
        exact Or.inl hmem
      · exact ih seen r h
    · rw [show dedupGo (p :: rest) seen = p :: dedupGo rest (p.url :: seen) by
        simp [dedupGo, hmem]]
      rcases List.mem_cons.1 hr with h | h
      · rw [h]
        exact Or.inr ⟨p, List.mem_cons_self _ _, rfl⟩
      · rcases ih (p.url :: seen) r h with hseen | ⟨r2, hr2, hurl⟩
        · rcases List.mem_cons.1 hseen with hu | hu
          · exact Or.inr ⟨p, List.mem_cons_self _ _, hu.symm⟩
          · exact Or.inl hu
        · exact Or.inr ⟨r2, List.mem_cons_of_mem _ hr2, hurl⟩

/-- C4, counterexample: on the primary-adapter path no deduplication
happens at all — a remote response repeating one URL is returned to the
caller with the duplicate intact, so URL uniqueness does not hold on
every path. -/
theorem C4_primary_no_dedup :
    ((search_products (some (.ok (.rawList
        [⟨"https://shop.example/a", "x", "", none⟩,
         ⟨"https://shop.example/b", "x", "", none⟩,
         ⟨"https://shop.example/a", "x", "", none⟩]))) []).1.map PriceRecord.url) =
      ["https://shop.example/a", "https://shop.example/b", "https://shop.example/a"] ∧
    ¬ ((search_products (some (.ok (.rawList
        [⟨"https://shop.example/a", "x", "", none⟩,
         ⟨"https://shop.example/b", "x", "", none⟩,
         ⟨"https://shop.example/a", "x", "", none⟩]))) []).1.map PriceRecord.url).Nodup := by
  constructor
  · decide
  · decide

/-- C4, amended: the single-pass first-seen-wins URL deduplication is
real but lives in the fallback orchestrator alone: every fallback
search result has pairwise distinct URLs, the dedup pass returns an
order-preserving sublist covering every input URL, and on the claim's
[A, B, A] example it keeps the first A record; the primary-adapter path
performs no deduplication. -/
theorem C4_dedup_fallback_only :
    (∀ se amz fk, (((fallback_search se amz fk).1.map PriceRecord.url).Nodup)) ∧
    (∀ l, (dedupByUrl l).Sublist l) ∧
    (∀ l, ∀ r ∈ l, ∃ r2 ∈ dedupByUrl l, r2.url = r.url) ∧
    dedupByUrl
      [{ marketplace := "Amazon", price := 100, currency := "INR", url := "https://x/A" },
       { marketplace := "Flipkart", price := 200, currency := "INR", url := "https://x/B" },
       { marketplace := "Croma", price := 300, currency := "INR", url := "https://x/A" }] =
      [{ marketplace := "Amazon", price := 100, currency := "INR", url := "https://x/A" },
       { marketplace := "Flipkart", price := 200, currency := "INR", url := "https://x/B" }] := by
  refine ⟨?_, fun l => dedupGo_sublist l [], ?_, by decide⟩
  · intro se amz fk
    unfold fallback_search
    by_cases hlen : se.length < 2
    · rw [if_pos hlen]
      exact (dedupGo_nodup _ []).1
    · rw [if_neg hlen]
      exact (dedupGo_nodup _ []).1
  · intro l r hr
    rcases dedupGo_covers l [] r hr with hseen | hcov
    · simp at hseen
    · exact hcov

/-- C4 witness: the coverage part applied to a concrete two-record
list with a duplicated URL. -/
theorem C4_dedup_witness :
    ∃ r2 ∈ dedupByUrl
      [{ marketplace := "Amazon", price := 5, currency := "INR", url := "u1" },
       { marketplace := "Croma", price := 7, currency := "INR", url := "u1" }],
      r2.url = ({ marketplace := "Croma", price := 7, currency := "INR",
                  url := "u1" } : PriceRecord).url :=
  C4_dedup_fallback_only.2.2.1
    [{ marketplace := "Amazon", price := 5, currency := "INR", url := "u1" },
     { marketplace := "Croma", price := 7, currency := "INR", url := "u1" }]
    _ (by decide)

/-! ## Tier precedence and escalation -/

/-- C5: the top-level search returns the primary adapter's normalized
records as-is without invoking the fallback whenever the remote call
produced any items, and otherwise (no credential, remote failure, or an
empty/unrecognized response) returns exactly the fallback orchestrator's
result; no merge of the two tiers ever happens. -/
theorem C5_tier_precedence :
    (∀ resp fb, fcItems resp ≠ [] →
        search_products (some (.ok resp)) fb = (parse_results (fcItems resp), false)) ∧
    (∀ fb, search_products none fb = (fb, true)) ∧
    (∀ e fb, search_products (some (.error e)) fb = (fb, true)) ∧
    (∀ resp fb, fcItems resp = [] →
        search_products (some (.ok resp)) fb = (fb, true)) := by
  refine ⟨?_, fun fb => rfl, fun e fb => rfl, ?_⟩
  · intro resp fb hne
    have hitems : (fcItems resp).isEmpty = false := by
      rcases h : fcItems resp with _ | ⟨a, rest⟩
      · exact absurd h hne
      · rfl
    have hres : (parse_results (fcItems resp)).isEmpty = false := by
      rcases h : fcItems resp with _ | ⟨a, rest⟩
      · exact absurd h hne
      · simp [parse_results, h]
    simp [search_products, hitems, hres]
  · intro resp fb hempty
    simp [search_products, hempty]

/-- C5 witness: a concrete remote response with one item takes the
primary path with the fallback not invoked. -/
theorem C5_tier_precedence_witness :
    search_products (some (.ok (.rawList [⟨"https://www.amazon.in/dp/z", "Acme TV ₹45,990", "", none⟩])))
        [{ marketplace := "Croma", price := 5, currency := "INR", url := "u" }] =
      (parse_results [⟨"https://www.amazon.in/dp/z", "Acme TV ₹45,990", "", none⟩], false) :=
  C5_tier_precedence.1
    (.rawList [⟨"https://www.amazon.in/dp/z", "Acme TV ₹45,990", "", none⟩])
    [{ marketplace := "Croma", price := 5, currency := "INR", url := "u" }]
    (by decide)

/-- C6: in the fallback orchestrator the two direct marketplace
scrapers are invoked exactly when the aggregator produced fewer than 2
records (so 1 record triggers both, 2 or more trigger neither), and a
raising Amazon call still leaves the Flipkart contribution in the
merged result. -/
theorem C6_escalation_trigger :
    (∀ se amz fk, ((fallback_search se amz fk).2.1 = true ↔ se.length < 2) ∧
        ((fallback_search se amz fk).2.2 = true ↔ se.length < 2)) ∧
    (∀ se fk, se.length < 2 →
        fallback_search se (.error ()) fk =
          (dedupByUrl (se ++ (match fk with | .ok l => l | .error _ => [])), true, true)) := by
  constructor
  · intro se amz fk
    unfold fallback_search
    by_cases hlen : se.length < 2
    · rw [if_pos hlen]
      exact ⟨⟨fun _ => hlen, fun _ => rfl⟩, ⟨fun _ => hlen, fun _ => rfl⟩⟩
    · rw [if_neg hlen]
      simp [hlen]
  · intro se fk hlen
    unfold fallback_search
    rw [if_pos hlen]
    simp

/-- C6 witness: one aggregator record escalates to the direct scrapers,
and an Amazon failure does not lose the Flipkart records. -/
theorem C6_escalation_witness :
    fallback_search [{ marketplace := "Amazon", price := 100, currency := "INR", url := "a" }]
        (.error ()) (.ok [{ marketplace := "Flipkart", price := 200, currency := "INR", url := "b" }]) =
      (dedupByUrl
        ([{ marketplace := "Amazon", price := 100, currency := "INR", url := "a" }] ++
          [{ marketplace := "Flipkart", price := 200, currency := "INR", url := "b" }]),
       true, true) :=
  C6_escalation_trigger.2
    [{ marketplace := "Amazon", price := 100, currency := "INR", url := "a" }]
    (.ok [{ marketplace := "Flipkart", price := 200, currency := "INR", url := "b" }])
    (by decide)

/-! ## Marketplace identification claims -/

theorem parse_results_marketplace (items : List FCItem) :
    ∀ r ∈ parse_results items, r.marketplace = fcMarketplace r.url := by
  intro r hr
  rcases List.mem_map.1 hr with ⟨item, _, hitem⟩
  rw [← hitem]

/-- C7, counterexample: the primary adapter's result normalization does
its own substring matching without lowercasing, so the uppercase Amazon
URL — which the fallback identifier resolves to Amazon — is labelled
with the generic sentinel there: the components do not identify
marketplaces alike. -/
theorem C7_case_sensitive_primary :
    identify_marketplace "https://WWW.AMAZON.IN/dp/x" = some "Amazon" ∧
    (parse_results [⟨"https://WWW.AMAZON.IN/dp/x", "y", "", none⟩]).map
        PriceRecord.marketplace = ["Online Store"] := by
  constructor
  · decide
  · decide

/-- C7, amended: the fallback identifier is case-insensitive and
substring-based with first-match-wins, an unmatched URL yields none,
and the aggregator replaces none by the "Online Store" sentinel in
every emitted record; the primary adapter's normalization, however,
uses its own smaller, case-sensitive table (so the uppercase Amazon URL
maps to the sentinel there). -/
theorem C7_marketplace_identification :
    identify_marketplace "https://WWW.AMAZON.IN/dp/x" = some "Amazon" ∧
    identify_marketplace "https://www.amazon.in/x?from=flipkart.com" = some "Amazon" ∧
    identify_marketplace "https://example.org/x" = none ∧
    (∀ f, ∀ r ∈ scrape_search_engine f,
        r.marketplace = (identify_marketplace r.url).getD "Online Store") ∧
    (∀ items, ∀ r ∈ parse_results items, r.marketplace = fcMarketplace r.url) ∧
    fcMarketplace "https://WWW.AMAZON.IN/dp/x" = "Online Store" := by
  refine ⟨by decide, by decide, by decide, ?_, parse_results_marketplace, by decide⟩
  exact fun f r hr => (scrape_search_engine_spec f r hr).1

/-- C7 witness: the aggregator formula applied to a concrete page whose
single result links to a lowercase Amazon URL. -/
theorem C7_marketplace_witness :
    ({ marketplace := "Amazon", price := 0, currency := "INR",
       url := "https://www.amazon.in/dp/b2" } : PriceRecord).marketplace =
      (identify_marketplace
        ({ marketplace := "Amazon", price := 0, currency := "INR",
           url := "https://www.amazon.in/dp/b2" } : PriceRecord).url).getD "Online Store" :=
  C7_marketplace_identification.2.2.2.1
    (.ok ⟨200, [⟨some ⟨"Acme Deal", some "https://www.amazon.in/dp/b2"⟩, none⟩]⟩)
    _ (by decide)

/-! ## Error-handling claims -/

/-- C8: the direct scrapers return a plain record list for every input
— the result of the try-block body, whether it finished or raised (the
error payload being the records accumulated at the raise point), and in
particular the empty list for a failed fetch, a non-success status, or
a page with no parsable listings. -/
theorem C8_scrapers_never_raise :
    (∀ f l, scrape_amazonTry f = .ok l → scrape_amazon f = l) ∧
    (∀ f l, scrape_amazonTry f = .error l → scrape_amazon f = l) ∧
    (∀ f l, scrape_flipkartTry f = .ok l → scrape_flipkart f = l) ∧
    (∀ f l, scrape_flipkartTry f = .error l → scrape_flipkart f = l) ∧
    (∀ e, scrape_amazon (.error e) = [] ∧ scrape_flipkart (.error e) = []) ∧
    (∀ pg : AmzPage, pg.status ≠ 200 → scrape_amazon (.ok pg) = []) ∧
    (∀ pg : FkPage, pg.status ≠ 200 → scrape_flipkart (.ok pg) = []) ∧
    (∀ st, scrape_amazon (.ok ⟨st, []⟩) = []) ∧
    (∀ st, scrape_flipkart (.ok ⟨st, []⟩) = []) := by
  refine ⟨?_, ?_, ?_, ?_, fun e => ⟨rfl, rfl⟩, ?_, ?_, ?_, ?_⟩
  · intro f l h
    rw [scrape_amazon_exVal, h, exVal]
  · intro f l h
    rw [scrape_amazon_exVal, h, exVal]
  · intro f l h
    rw [scrape_flipkart_exVal, h, exVal]
  · intro f l h
    rw [scrape_flipkart_exVal, h, exVal]
  · intro pg h
    rw [scrape_amazon_exVal]
    simp [scrape_amazonTry, h, exVal]
  · intro pg h
    rw [scrape_flipkart_exVal]
    simp [scrape_flipkartTry, h, exVal]
  · intro st
    rw [scrape_amazon_exVal]
    by_cases h : st ≠ 200 <;> simp [scrape_amazonTry, h, exVal, amzLoopT]
  · intro st
    rw [scrape_flipkart_exVal]
    by_cases h : st ≠ 200 <;> simp [scrape_flipkartTry, h, exVal, fkLoopT]

/-- C8 witness: a fetch whose second listing blows up mid-parse — the
try body raises with one record accumulated, and the scraper returns
exactly that accumulated record. -/
theorem C8_scrapers_witness :
    scrape_amazonTry (.ok ⟨200,
        [.ok ⟨some "Acme Phone", some "₹1,299", some "/dp/x", none⟩, .error ()]⟩) =
      .error [{ marketplace := "Amazon", price := 1299, currency := "INR",
                url := "https://www.amazon.in/dp/x" }] ∧
    scrape_amazon (.ok ⟨200,
        [.ok ⟨some "Acme Phone", some "₹1,299", some "/dp/x", none⟩, .error ()]⟩) =
      [{ marketplace := "Amazon", price := 1299, currency := "INR",
         url := "https://www.amazon.in/dp/x" }] :=
  ⟨by decide, C8_scrapers_never_raise.2.1 _ _ (by decide)⟩

/-! ## Search endpoint claims -/

theorem searchAgg_fst (l : List PriceRecord) :
    ∀ best minP, (searchAgg l best minP).1 = l.map toSnapshot := by
  induction l with
  | nil =>
    intro best minP
    rfl
  | cons p rest ih =>
    intro best minP
    simp only [searchAgg, List.map_cons]
    rw [ih]

theorem searchAgg_inv (l : List PriceRecord) :
    ∀ seen best minP, BestInv seen (best, minP) →
      BestInv (seen ++ l) ((searchAgg l best minP).2.1, (searchAgg l best minP).2.2) := by
  induction l with
  | nil =>
    intro seen best minP h
    simpa [searchAgg] using h
  | cons p rest ih =>
    intro seen best minP h
    by_cases hkeep : (decide (0 < p.price) && ltMin p.price minP) = true
    · have hparts : decide (0 < p.price) = true ∧ ltMin p.price minP = true := by
        rw [Bool.and_eq_true] at hkeep
        exact hkeep
      have hpos : 0 < p.price := by simpa using hparts.1
      have hlt : ltMin p.price minP = true := hparts.2
      have hstep : BestInv (seen ++ [p]) (some (toSnapshot p), some p.price) := by
        simp only [BestInv]
        refine ⟨rfl, ⟨p, by simp, rfl, hpos⟩, ?_⟩
        intro r hr hrpos
        rcases List.mem_append.1 hr with hr | hr
        · match best, minP, h with
          | none, none, h =>
            simp only [BestInv] at h
            exact absurd hrpos (h r hr)
          | some b, some m, h =>
            simp only [BestInv] at h
            have hm : p.price < m := by simpa [ltMin] using hlt
            exact le_of_lt (lt_of_lt_of_le hm (h.2.2 r hr hrpos))
          | none, some m, h => exact absurd h (by simp [BestInv])
          | some b, none, h => exact absurd h (by simp [BestInv])
        · rw [List.mem_singleton.1 hr]
      have hrec := ih (seen ++ [p]) (some (toSnapshot p)) (some p.price) hstep
      have heq : searchAgg (p :: rest) best minP =
          (toSnapshot p :: (searchAgg rest (some (toSnapshot p)) (some p.price)).1,
            (searchAgg rest (some (toSnapshot p)) (some p.price)).2) := by
        simp [searchAgg, hkeep]
      rw [heq]
      simpa [List.append_assoc] using hrec
    · have hstep : BestInv (seen ++ [p]) (best, minP) := by
        match best, minP, h with
        | none, none, h =>
          simp only [BestInv] at h ⊢
          intro r hr
          rcases List.mem_append.1 hr with hr | hr
          · exact h r hr
          · rw [List.mem_singleton.1 hr]
            intro hpos
            exact hkeep (by simp [hpos, ltMin])
        | some b, some m, h =>
          simp only [BestInv] at h ⊢
          obtain ⟨hbm, ⟨r0, hr0, hr0s, hr0pos⟩, hmin⟩ := h
          refine ⟨hbm, ⟨r0, List.mem_append_left _ hr0, hr0s, hr0pos⟩, ?_⟩
          intro r hr hrpos
          rcases List.mem_append.1 hr with hr | hr
          · exact hmin r hr hrpos
          · rw [List.mem_singleton.1 hr] at hrpos ⊢
            have hltfalse : ¬ (p.price < m) := by
              intro hc
              exact hkeep (by simp [hrpos, ltMin, hc])
            exact le_of_not_lt hltfalse
        | none, some m, h => exact absurd h (by simp [BestInv])
        | some b, none, h => exact absurd h (by simp [BestInv])
      have hrec := ih (seen ++ [p]) best minP hstep
      have heq : searchAgg (p :: rest) best minP =
          (toSnapshot p :: (searchAgg rest best minP).1, (searchAgg rest best minP).2) := by
        simp [searchAgg, hkeep]
      rw [heq]
      simpa [List.append_assoc] using hrec

/-- C9: the endpoint returns one snapshot per record in order, fixes
the confidence at 0.8 when any record came back and 0.1 otherwise, and
picks as best_price a snapshot of a minimal positive-price record —
none exactly when no record has positive price. -/
theorem C9_best_price_confidence (records : List PriceRecord) :
    (searchEndpoint records).1 = records.map toSnapshot ∧
    (searchEndpoint records).2.2 = (if records.isEmpty then (0.1 : ℚ) else (0.8 : ℚ)) ∧
    ((searchEndpoint records).2.1 = none → ∀ r ∈ records, ¬ (0 < r.price)) ∧
    (∀ b, (searchEndpoint records).2.1 = some b →
        ∃ r ∈ records, toSnapshot r = b ∧ 0 < r.price ∧
          ∀ r2 ∈ records, 0 < r2.price → r.price ≤ r2.price) := by
  have h0 : BestInv ([] : List PriceRecord) (none, none) := by
    simp [BestInv]
  have hinv : BestInv records
      ((searchAgg records none none).2.1, (searchAgg records none none).2.2) := by
    simpa using searchAgg_inv records [] none none h0
  have hfst := searchAgg_fst records none none
  have hproj1 : (searchEndpoint records).1 = (searchAgg records none none).1 := rfl
  have hproj2 : (searchEndpoint records).2.1 = (searchAgg records none none).2.1 := rfl
  refine ⟨by rw [hproj1, hfst], ?_, ?_, ?_⟩
  · have hmap : (records.map toSnapshot).isEmpty = records.isEmpty := by
      cases records <;> rfl
    show (if (searchAgg records none none).1.isEmpty then (0.1 : ℚ) else (0.8 : ℚ)) = _
    rw [hfst, hmap]
  · intro hnone r hr
    rw [hproj2] at hnone
    rcases hmin : (searchAgg records none none).2.2 with _ | m
    · rw [hnone, hmin] at hinv
      simp only [BestInv] at hinv
      exact hinv r hr
    · rw [hnone, hmin] at hinv
      exact absurd hinv (by simp [BestInv])
  · intro b hb
    rw [hproj2] at hb
    rcases hmin : (searchAgg records none none).2.2 with _ | m
    · rw [hb, hmin] at hinv
      exact absurd hinv (by simp [BestInv])
    · rw [hb, hmin] at hinv
      simp only [BestInv] at hinv
      obtain ⟨hbm, ⟨r0, hr0, hr0s, hr0pos⟩, hmin'⟩ := hinv
      refine ⟨r0, hr0, hr0s, hr0pos, ?_⟩
      intro r2 hr2 h2pos
      have hr0m : r0.price = m := by
        rw [← hr0s] at hbm
        simpa [toSnapshot] using hbm
      rw [hr0m]
      exact hmin' r2 hr2 h2pos

/-- C9 witness: on a concrete two-record list the minimal positive
record is selected. -/
theorem C9_best_price_witness :
    ∃ r ∈ [({ marketplace := "Amazon", price := 500, currency := "INR",
              url := "a" } : PriceRecord),
           ({ marketplace := "Flipkart", price := 300, currency := "INR",
              url := "b" } : PriceRecord)],
      toSnapshot r = { marketplace := "Flipkart", price := 300, currency := "INR",
                       url := "b" } ∧ 0 < r.price ∧
        ∀ r2 ∈ [({ marketplace := "Amazon", price := 500, currency := "INR",
                   url := "a" } : PriceRecord),
                ({ marketplace := "Flipkart", price := 300, currency := "INR",
                   url := "b" } : PriceRecord)],
          0 < r2.price → r.price ≤ r2.price :=
  (C9_best_price_confidence
      [{ marketplace := "Amazon", price := 500, currency := "INR", url := "a" },
       { marketplace := "Flipkart", price := 300, currency := "INR", url := "b" }]).2.2.2
    { marketplace := "Flipkart", price := 300, currency := "INR", url := "b" }
    (by decide)

theorem searchAgg_zero (l : List PriceRecord) (hz : ∀ r ∈ l, r.price = 0) :
    searchAgg l none none = (l.map toSnapshot, none, none) := by
  induction l with
  | nil => rfl
  | cons p rest ih =>
    have hp : p.price = 0 := hz p (List.mem_cons_self _ _)
    have hkeep : (decide (0 < p.price) && ltMin p.price none) = false := by
      simp [hp]
    have hrest := ih (fun r hr => hz r (List.mem_cons_of_mem _ hr))
    simp [searchAgg, hkeep, hrest]

/-- C10: a non-empty record list in which every price is 0 still
produces a snapshot for every record and the 0.8 confidence, yet no
best_price — and such lists are reachable: a full pipeline run whose
only aggregator result is a known marketplace link without a parsable
price ends in exactly one zero-price record. -/
theorem C10_all_zero_prices :
    (∀ records, records ≠ [] → (∀ r ∈ records, r.price = 0) →
        (searchEndpoint records).1 = records.map toSnapshot ∧
        (searchEndpoint records).2.1 = none ∧
        (searchEndpoint records).2.2 = (0.8 : ℚ)) ∧
    (search_products none (fallback_search
        (scrape_search_engine (.ok ⟨200,
          [⟨some ⟨"Acme Tablet premium", some "https://www.flipkart.com/p/z9"⟩, none⟩]⟩))
        (.ok []) (.ok [])).1).1 =
      [{ marketplace := "Flipkart", price := 0, currency := "INR",
         url := "https://www.flipkart.com/p/z9" }] := by
  constructor
  · intro records hne hz
    have hagg := searchAgg_zero records hz
    have hproj1 : (searchEndpoint records).1 = (searchAgg records none none).1 := rfl
    have hproj2 : (searchEndpoint records).2.1 = (searchAgg records none none).2.1 := rfl
    refine ⟨by rw [hproj1, hagg], by rw [hproj2, hagg], ?_⟩
    have hmapne : (searchAgg records none none).1.isEmpty = false := by
      rw [hagg]
      rcases records with _ | ⟨a, rest⟩
      · exact absurd rfl hne
      · rfl
    show (if (searchAgg records none none).1.isEmpty then (0.1 : ℚ) else (0.8 : ℚ)) = _
    rw [hmapne]
    rfl
  · decide

/-- C10 witness: the all-zero behaviour applied to a concrete
single-record list. -/
theorem C10_all_zero_witness :
    (searchEndpoint [{ marketplace := "Flipkart", price := 0, currency := "INR",
                       url := "https://www.flipkart.com/p/z9" }]).2.1 = none ∧
    (searchEndpoint [{ marketplace := "Flipkart", price := 0, currency := "INR",
                       url := "https://www.flipkart.com/p/z9" }]).2.2 = (0.8 : ℚ) :=
  ⟨(C10_all_zero_prices.1 _ (by decide) (by decide)).2.1,
   (C10_all_zero_prices.1 _ (by decide) (by decide)).2.2⟩

end Veetaa
